import Mathlib

set_option maxRecDepth 8000

/-!
Verification of the EduMate backend (`backend/main.py`).

The Python module is shallowly embedded here:
* JSON-like values (the result of `json.loads`) become the inductive `Json`;
* Python functions that can raise become `Except String` computations, with
  the raise points of the CPython semantics (e.g. `len()` on a non-sized
  value, `.append` on a non-list, slicing a dict) modelled as errors — the
  error message texts are modelled, not byte-exact CPython messages;
* `str()`, `.upper()`, `.strip()`, `in`, and `re.sub` with the two literal
  fence patterns used by the code are modelled on `List Char` / `String`;
  the whitespace class of `\s` and `str.strip` is modelled by
  `Char.isWhitespace` (space, tab, CR, LF), and `str()` of nested
  lists/dicts is rendered without Python's quote-escaping rules — no
  theorem below depends on either refinement;
* the OpenAI completion call and `json.loads` are external capabilities and
  are passed to the orchestrator as parameters, together with bookkeeping
  flags recording whether the upstream call was made and whether the
  sanitizer (`validate_study_data`) ran.

Defect of the committed source: `generate_study_material` (lines 176-246)
is syntactically invalid Python.  Lines 206-223 (the completion call and
the `response_text`/`cleaned_response` assignments) are dedented to module
level, which leaves the `try:` at line 193 without an `except` clause —
the module is a SyntaxError, cannot be imported, and the `/api/generate`
endpoint can never run.  The committed program therefore has NO runnable
generate operation; `clean_json_response` and `validate_study_data` are
the syntactically intact parts and are embedded as-is.  The orchestration
is embedded below only as `generate_study_material_intended`: the control
flow the surrounding `try`/`except` structure and the spec evidently
intend, obtained by restoring the dedented block into the `try:` body.
Theorems about it document that the claimed endpoint behaviours are the
intent this indentation slip broke, not behaviours of the committed file.
-/

/-- A JSON-like structured value, as produced by `json.loads`.
JSON numbers are modelled as integers (no claim depends on floats). -/
inductive Json where
  | null : Json
  | bool (b : Bool) : Json
  | num (n : Int) : Json
  | str (s : String) : Json
  | arr (elems : List Json) : Json
  | obj (fields : List (String × Json)) : Json

/-- The single-quote character, written via its code point. -/
def pySq : String := String.singleton (Char.ofNat 39)

/-- The backtick character, written via its code point. -/
def backtick : Char := Char.ofNat 96

mutual
/-- Python `repr` of a JSON value (string escaping inside quotes is not
modelled; no theorem depends on the rendering of nested values). -/
def pyRepr : Json → String
  | .null => "None"
  | .bool b => cond b "True" "False"
  | .num n => toString n
  | .str s => pySq ++ s ++ pySq
  | .arr xs => "[" ++ pyReprArr xs ++ "]"
  | .obj kvs => "\x7b" ++ pyReprObj kvs ++ "\x7d"

/-- Comma-separated reprs of list elements. -/
def pyReprArr : List Json → String
  | [] => ""
  | [x] => pyRepr x
  | x :: y :: rest => pyRepr x ++ ", " ++ pyReprArr (y :: rest)

/-- Comma-separated reprs of dict entries. -/
def pyReprObj : List (String × Json) → String
  | [] => ""
  | [(k, v)] => pySq ++ k ++ pySq ++ ": " ++ pyRepr v
  | (k, v) :: kv :: rest =>
      pySq ++ k ++ pySq ++ ": " ++ pyRepr v ++ ", " ++ pyReprObj (kv :: rest)
end

/-- Python `str()` of a JSON value. -/
def pyStr : Json → String
  | .null => "None"
  | .bool b => cond b "True" "False"
  | .num n => toString n
  | .str s => s
  | .arr xs => "[" ++ pyReprArr xs ++ "]"
  | .obj kvs => "\x7b" ++ pyReprObj kvs ++ "\x7d"

/-- Python truthiness of a JSON value. -/
def pyTruthy : Json → Bool
  | .null => false
  | .bool b => b
  | .num n => n != 0
  | .str s => !s.isEmpty
  | .arr xs => !xs.isEmpty
  | .obj kvs => !kvs.isEmpty

/-- Python `str.upper` (ASCII letters, as `Char.toUpper`). -/
def pyUpper (s : String) : String := String.mk (s.data.map Char.toUpper)

/-- Python `str.lower` (ASCII letters, as `Char.toLower`). -/
def pyLower (s : String) : String := String.mk (s.data.map Char.toLower)

/-- The whitespace class used for `\s` and `str.strip`. -/
def pyIsSpace (c : Char) : Bool := c.isWhitespace

/-- Drop a trailing run of characters satisfying `p`. -/
def dropTrail (p : Char → Bool) : List Char → List Char
  | [] => []
  | c :: rest =>
      let r := dropTrail p rest
      if r.isEmpty && p c then [] else c :: r

/-- Python `str.strip()` on the character list. -/
def pyStripL (l : List Char) : List Char :=
  dropTrail pyIsSpace (l.dropWhile pyIsSpace)

/-- Python `str.strip()`. -/
def pyStrip (s : String) : String := String.mk (pyStripL s.data)

/-- One scan of `re.sub(pat + r'\s*', '', ·)`: leftmost non-overlapping
matches of the literal `pat` followed by a greedy whitespace run are
deleted.  `fuel` is a structural bound; `fuel = length of the list`
always suffices (each step strictly shrinks the list). -/
def pySubGo (pat : List Char) : Nat → List Char → List Char
  | _, [] => []
  | 0, s => s
  | fuel + 1, c :: rest =>
      if pat.isPrefixOf (c :: rest) then
        pySubGo pat fuel (((c :: rest).drop pat.length).dropWhile pyIsSpace)
      else
        c :: pySubGo pat fuel rest

/-- Python `re.sub(pat + r'\s*', '', s)` for a literal pattern `pat`. -/
def pySubDel (pat : List Char) (s : List Char) : List Char :=
  pySubGo pat s.length s

/-- The literal of the first fence pattern, `r'```json\s*'`. -/
def fenceJson : List Char := "```json".data

/-- The literal of the second fence pattern, `r'```\s*'`. -/
def fenceL : List Char := "```".data

/-- Lines 105-114 of `main.py`: strip markdown code fences and surrounding
whitespace from the model response. -/
def clean_json_response (response_text : String) : String :=
  pyStrip (String.mk (pySubDel fenceL (pySubDel fenceJson response_text.data)))

/-- Python substring test `needle in hay` (on char lists). -/
def listContainsSub (pat : List Char) : List Char → Bool
  | [] => pat.isEmpty
  | c :: rest => pat.isPrefixOf (c :: rest) || listContainsSub pat rest

/-- Python substring test `needle in hay`. -/
def pyContains (needle hay : String) : Bool := listContainsSub needle.data hay.data

/-- Pydantic model `MCQ`. -/
structure MCQ where
  question : String
  options : List String
  answer : String
deriving DecidableEq

/-- Pydantic model `Flashcard`. -/
structure Flashcard where
  front : String
  back : String
deriving DecidableEq

/-- Pydantic model `StudyData`. -/
structure StudyData where
  notes : List String
  mcqs : List MCQ
  flashcards : List Flashcard
deriving DecidableEq

/-- Python `d.get(key, dflt)` for a dict already known to be a dict. -/
def dictGet (kvs : List (String × Json)) (key : String) (dflt : Json) : Json :=
  match kvs.find? (fun kv => kv.1 == key) with
  | some kv => kv.2
  | none => dflt

/-- Python `len()`: defined for strings, lists and dicts, a `TypeError`
otherwise. -/
def pyLen : Json → Except String Nat
  | .str s => Except.ok s.length
  | .arr xs => Except.ok xs.length
  | .obj kvs => Except.ok kvs.length
  | _ => Except.error "TypeError: object has no len()"

/-- Python slicing `x[:4]`: lists and strings are sliceable, dicts and
scalars raise a `TypeError`. -/
def pySlice4 : Json → Except String Json
  | .arr xs => Except.ok (Json.arr (xs.take 4))
  | .str s => Except.ok (Json.str (String.mk (s.data.take 4)))
  | _ => Except.error "TypeError: object is not subscriptable by a slice"

/-- Python iteration `for x in v`: lists yield elements, strings yield
one-character strings, dicts yield their keys. -/
def pyIter : Json → Except String (List Json)
  | .arr xs => Except.ok xs
  | .str s => Except.ok (s.data.map (fun c => Json.str (String.singleton c)))
  | .obj kvs => Except.ok (kvs.map (fun kv => Json.str kv.1))
  | _ => Except.error "TypeError: object is not iterable"

/-- The synthesized placeholder option appended when the option list has
`n` entries: `f"\x7bchr(65 + len(options))\x7d) Option \x7blen(options) + 1\x7d"`. -/
def synthOption (n : Nat) : String :=
  String.singleton (Char.ofNat (65 + n)) ++ ") Option " ++ toString (n + 1)

/-- The `while len(options) < 4: options.append(...)` loop on a list.
`fuel = 4` always suffices: the loop appends at most `4` elements. -/
def padLoop : Nat → List Json → List Json
  | 0, opts => opts
  | fuel + 1, opts =>
      if opts.length < 4 then
        padLoop fuel (opts ++ [Json.str (synthOption opts.length)])
      else opts

/-- Lines 131-138 of `main.py`, the `if len(options) != 4` repair block:
pad (requires a list, since padding calls `.append`) and slice to the
first four.  `n` is the already-computed `len(options)`. -/
def fix_options_shape (options : Json) (n : Nat) : Except String Json :=
  if n = 4 then Except.ok options
  else if n < 4 then
    match options with
    | Json.arr xs => Except.ok (Json.arr ((padLoop 4 xs).take 4))
    | _ => Except.error "AttributeError: object has no attribute append"
  else pySlice4 options

/-- Option handling for one mcq dict: `len`, the repair block, and the
`[str(opt) for opt in options]` conversion. -/
def fix_options (options : Json) : Except String (List String) :=
  match pyLen options with
  | Except.error e => Except.error e
  | Except.ok n =>
    match fix_options_shape options n with
    | Except.error e => Except.error e
    | Except.ok options1 =>
      match pyIter options1 with
      | Except.error e => Except.error e
      | Except.ok elems => Except.ok (elems.map pyStr)

/-- Lines 129-144 of `main.py`: the dict appended to `validated_mcqs` for one
mcq element that is a dict. -/
def validate_mcq (mkvs : List (String × Json)) : Except String MCQ :=
  match fix_options (dictGet mkvs "options" (Json.arr [])) with
  | Except.error e => Except.error e
  | Except.ok opts =>
    Except.ok
      { question := pyStr (dictGet mkvs "question" (Json.str "Question"))
        options := opts
        answer := pyUpper (pyStr (dictGet mkvs "answer" (Json.str "A"))) }

/-- The `for mcq in mcqs[:5]` loop body: dict elements are validated,
non-dict elements are skipped. -/
def validate_mcqs : List Json → Except String (List MCQ)
  | [] => Except.ok []
  | Json.obj mkvs :: rest =>
      match validate_mcq mkvs with
      | Except.error e => Except.error e
      | Except.ok m =>
        match validate_mcqs rest with
        | Except.error e => Except.error e
        | Except.ok ms => Except.ok (m :: ms)
  | _ :: rest => validate_mcqs rest

/-- The `for card in flashcards[:3]` loop: dict elements contribute a
flashcard with defaults, non-dict elements are skipped.  No raise points. -/
def validate_flashcards : List Json → List Flashcard
  | [] => []
  | Json.obj ckvs :: rest =>
      { front := pyStr (dictGet ckvs "front" (Json.str "Question"))
        back := pyStr (dictGet ckvs "back" (Json.str "Answer")) }
        :: validate_flashcards rest
  | _ :: rest => validate_flashcards rest

/-- Lines 117-163 of `main.py`, `validate_study_data`: the normalize step of
the sanitizer.  Raise points (`.get` on a non-dict, `len`/`append`/slice
on unexpected option values) surface as `Except.error`; in the service
they are caught by the orchestrator's outer `except` block. -/
def validate_study_data (data : Json) : Except String StudyData :=
  match data with
  | Json.obj kvs =>
    -- notes = data.get("notes", []); wrap non-lists; str + truthiness filter
    let notes1 : List Json :=
      match dictGet kvs "notes" (Json.arr []) with
      | Json.arr xs => xs
      | other => [Json.str (pyStr other)]
    let notes : List String := (notes1.filter pyTruthy).map pyStr
    -- mcqs = data.get("mcqs", []); non-lists become []
    let mcqsL : List Json :=
      match dictGet kvs "mcqs" (Json.arr []) with
      | Json.arr xs => xs
      | _ => []
    match validate_mcqs (mcqsL.take 5) with
    | Except.error e => Except.error e
    | Except.ok mcqs =>
      -- flashcards = data.get("flashcards", []); non-lists become []
      let fcL : List Json :=
        match dictGet kvs "flashcards" (Json.arr []) with
        | Json.arr xs => xs
        | _ => []
      Except.ok { notes := notes, mcqs := mcqs, flashcards := validate_flashcards (fcL.take 3) }
  | _ => Except.error "AttributeError: object has no attribute get"

/-- The response model `GenerationResponse`. -/
structure GenerationResponse where
  success : Bool
  data : Option StudyData
  error : Option String
deriving DecidableEq

/-- The observable outcome of the intended orchestration: the HTTP-level
response plus bookkeeping flags recording whether the upstream completion
call was issued and whether the sanitizer (`validate_study_data`) was
invoked. -/
structure GenOutcome where
  response : GenerationResponse
  upstreamCalled : Bool
  normalizeCalled : Bool
deriving DecidableEq

/-- Lines 238-243 of `main.py`: the `except Exception` classification of
an error message (part of the intended orchestration; the enclosing
function is syntactically broken in the committed file). -/
def classify_error (e : String) : String :=
  if pyContains "api_key" (pyLower e) then "API configuration error. Please contact support."
  else if pyContains "rate limit" (pyLower e) then "Too many requests. Please try again in a moment."
  else e

/-- The INTENDED control flow of `generate_study_material` (`main.py`
lines 176-246).  The committed function is a SyntaxError — lines 206-223
are dedented out of the `try:` block at line 193, which is left without
an `except`, so the module cannot be imported and this code path cannot
execute at all.  This definition restores the dedented completion-call
block to its evident place inside the `try:` and embeds the resulting
control flow; it exists to document what the slip broke (claims C3/C4
are code bugs against it), not as an embedding of runnable committed
code.  The external capabilities are parameters: `parse` models
`json.loads` (returning the decoded value or the `JSONDecodeError`
text), `upstream` models the completion call (returning the response
text or the exception text). -/
def generate_study_material_intended (parse : String → Except String Json)
    (upstream : Except String String) (topic : String) : GenOutcome :=
  if pyStrip topic = "" then
    { response := { success := false, data := none, error := some "Topic cannot be empty" }
      upstreamCalled := false, normalizeCalled := false }
  else
    match upstream with
    | Except.error e =>
        { response := { success := false, data := none, error := some (classify_error e) }
          upstreamCalled := true, normalizeCalled := false }
    | Except.ok response_text =>
      let cleaned := clean_json_response response_text
      match parse cleaned with
      | Except.error e =>
          { response := { success := false, data := none
                          error := some ("Failed to parse AI response: " ++ e) }
            upstreamCalled := true, normalizeCalled := false }
      | Except.ok parsed_data =>
        match validate_study_data parsed_data with
        | Except.error e =>
            { response := { success := false, data := none, error := some (classify_error e) }
              upstreamCalled := true, normalizeCalled := true }
        | Except.ok study_data =>
            { response := { success := true, data := some study_data, error := none }
              upstreamCalled := true, normalizeCalled := true }

/-- Does one mcq element, when it is a dict, hold a list (or nothing) under
`"options"`?  On such elements the repair block's `len`/`append`/slice calls
are all defined. -/
def options_is_list : Json → Bool
  | Json.obj mkvs =>
      match dictGet mkvs "options" (Json.arr []) with
      | Json.arr _ => true
      | _ => false
  | _ => true

/-- Inputs on which `validate_study_data` provably raises nothing: a dict
whose first five mcq elements, when dicts, hold lists (or nothing) under
`"options"`. -/
def safe_input : Json → Bool
  | Json.obj kvs =>
      (match dictGet kvs "mcqs" (Json.arr []) with
       | Json.arr ms => (ms.take 5).all options_is_list
       | _ => true)
  | _ => false

/-- The canonical JSON form of a multiple-choice question. -/
def mcqToJson (m : MCQ) : Json :=
  Json.obj [("question", Json.str m.question),
            ("options", Json.arr (m.options.map Json.str)),
            ("answer", Json.str m.answer)]

/-- The canonical JSON form of a flashcard. -/
def flashcardToJson (c : Flashcard) : Json :=
  Json.obj [("front", Json.str c.front), ("back", Json.str c.back)]

/-- The canonical JSON form of an already-conformant `StudyData`, used to
state idempotence of the normalize step. -/
def studyDataToJson (sd : StudyData) : Json :=
  Json.obj
    [("notes", Json.arr (sd.notes.map Json.str)),
     ("mcqs", Json.arr (sd.mcqs.map mcqToJson)),
     ("flashcards", Json.arr (sd.flashcards.map flashcardToJson))]

/-- Number of leading backticks of a character list. -/
def countLead : List Char → Nat
  | [] => 0
  | c :: rest => if c == backtick then 1 + countLead rest else 0

/-- Does the character list contain three consecutive backticks (the
code-fence marker) anywhere? -/
def hasTriple : List Char → Bool
  | a :: b :: c :: rest =>
      (a == backtick && (b == backtick && c == backtick)) || hasTriple (b :: c :: rest)
  | _ => false

/-- Is the string free of backticks? -/
def noBacktick (s : String) : Bool := s.data.all (fun c => c != backtick)

/-! ### Helper lemmas: padding and option repair -/

theorem padLoop_ge (fuel : Nat) (xs : List Json) (h : ¬ xs.length < 4) :
    padLoop fuel xs = xs := by
  cases fuel <;> simp [padLoop, h]

theorem padLoop_length (fuel : Nat) :
    ∀ xs : List Json, min 4 (xs.length + fuel) ≤ (padLoop fuel xs).length := by
  induction fuel with
  | zero => intro xs; simp only [padLoop]; omega
  | succ f ih =>
    intro xs
    by_cases h : xs.length < 4
    · have hrec := ih (xs ++ [Json.str (synthOption xs.length)])
      simp only [List.length_append, List.length_cons, List.length_nil] at hrec
      simp only [padLoop, h, if_true]
      omega
    · rw [padLoop_ge _ _ h]; omega

theorem fix_options_shape_arr (xs : List Json) :
    fix_options_shape (Json.arr xs) xs.length = Except.ok (Json.arr ((padLoop 4 xs).take 4)) := by
  unfold fix_options_shape
  rcases Nat.lt_trichotomy xs.length 4 with h | h | h
  · have hne : xs.length ≠ 4 := by omega
    simp only [hne, if_false, h, if_true]
  · have hp : padLoop 4 xs = xs := padLoop_ge _ _ (by omega)
    have ht : xs.take 4 = xs := List.take_of_length_le (by omega)
    simp only [h, if_true, hp, ht]
  · have hne : xs.length ≠ 4 := by omega
    have hnl : ¬ xs.length < 4 := by omega
    have hp : padLoop 4 xs = xs := padLoop_ge _ _ hnl
    simp only [hne, if_false, hnl, pySlice4, hp]

theorem fix_options_arr (xs : List Json) :
    fix_options (Json.arr xs) = Except.ok (((padLoop 4 xs).take 4).map pyStr) := by
  unfold fix_options
  have h1 : pyLen (Json.arr xs) = Except.ok xs.length := rfl
  rw [h1]
  dsimp only
  rw [fix_options_shape_arr]
  dsimp only
  rfl

theorem pyIter_length (v : Json) (k : Nat) (es : List Json)
    (hl : pyLen v = Except.ok k) (hi : pyIter v = Except.ok es) : es.length = k := by
  cases v with
  | str s =>
      simp only [pyLen, Except.ok.injEq] at hl
      simp only [pyIter, Except.ok.injEq] at hi
      subst hi; subst hl
      simp only [List.length_map]; rfl
  | arr xs =>
      simp only [pyLen, Except.ok.injEq] at hl
      simp only [pyIter, Except.ok.injEq] at hi
      subst hi; subst hl; rfl
  | obj kvs =>
      simp only [pyLen, Except.ok.injEq] at hl
      simp only [pyIter, Except.ok.injEq] at hi
      subst hi; subst hl
      simp only [List.length_map]
  | null => simp [pyLen] at hl
  | bool b => simp [pyLen] at hl
  | num n => simp [pyLen] at hl

theorem fix_options_shape_len (v v1 : Json) (n : Nat)
    (hl : pyLen v = Except.ok n) (hs : fix_options_shape v n = Except.ok v1) :
    pyLen v1 = Except.ok 4 := by
  unfold fix_options_shape at hs
  by_cases h4 : n = 4
  · simp only [h4, if_true] at hs
    cases hs; rwa [h4] at hl
  · simp only [h4, if_false] at hs
    by_cases hlt : n < 4
    · simp only [hlt, if_true] at hs
      cases v with
      | arr xs =>
          cases hs
          have hlen := padLoop_length 4 xs
          simp only [pyLen, Except.ok.injEq] at hl
          simp only [pyLen, Except.ok.injEq, List.length_take]
          omega
      | null => exact absurd hs (by simp)
      | bool b => exact absurd hs (by simp)
      | num m => exact absurd hs (by simp)
      | str s => exact absurd hs (by simp)
      | obj kvs => exact absurd hs (by simp)
    · simp only [hlt, if_false] at hs
      cases v with
      | arr xs =>
          simp only [pySlice4, Except.ok.injEq] at hs
          subst hs
          simp only [pyLen, Except.ok.injEq, List.length_take]
          simp only [pyLen, Except.ok.injEq] at hl
          omega
      | str s =>
          simp only [pySlice4, Except.ok.injEq] at hs
          subst hs
          simp only [pyLen, Except.ok.injEq, String.length]
          simp only [pyLen, Except.ok.injEq, String.length] at hl
          simp only [List.length_take]
          omega
      | null => exact absurd hs (by simp [pySlice4])
      | bool b => exact absurd hs (by simp [pySlice4])
      | num m => exact absurd hs (by simp [pySlice4])
      | obj kvs => exact absurd hs (by simp [pySlice4])

theorem fix_options_length (v : Json) (opts : List String)
    (h : fix_options v = Except.ok opts) : opts.length = 4 := by
  unfold fix_options at h
  cases hl : pyLen v with
  | error e => rw [hl] at h; exact absurd h (by simp)
  | ok n =>
    rw [hl] at h
    dsimp only at h
    cases hs : fix_options_shape v n with
    | error e => rw [hs] at h; exact absurd h (by simp)
    | ok v1 =>
      rw [hs] at h
      dsimp only at h
      cases hi : pyIter v1 with
      | error e => rw [hi] at h; exact absurd h (by simp)
      | ok elems =>
        rw [hi] at h
        dsimp only at h
        simp only [Except.ok.injEq] at h
        subst h
        have h4 := fix_options_shape_len v v1 n hl hs
        have := pyIter_length v1 4 elems h4 hi
        simpa using this

/-! ### Helper lemmas: the mcq and flashcard loops -/

theorem validate_mcq_options (mkvs : List (String × Json)) (m : MCQ)
    (h : validate_mcq mkvs = Except.ok m) : m.options.length = 4 := by
  unfold validate_mcq at h
  cases hf : fix_options (dictGet mkvs "options" (Json.arr [])) with
  | error e => rw [hf] at h; exact absurd h (by simp)
  | ok opts =>
    rw [hf] at h
    simp only [Except.ok.injEq] at h
    subst h
    exact fix_options_length _ _ hf

theorem validate_mcqs_length (l : List Json) (ms : List MCQ)
    (h : validate_mcqs l = Except.ok ms) : ms.length ≤ l.length := by
  induction l generalizing ms with
  | nil =>
      simp only [validate_mcqs, Except.ok.injEq] at h
      subst h; simp
  | cons x rest ih =>
    cases x with
    | obj mkvs =>
        unfold validate_mcqs at h
        cases hm : validate_mcq mkvs with
        | error e => rw [hm] at h; exact absurd h (by simp)
        | ok m =>
          rw [hm] at h
          dsimp only at h
          cases hr : validate_mcqs rest with
          | error e => rw [hr] at h; exact absurd h (by simp)
          | ok ms0 =>
            rw [hr] at h
            simp only [Except.ok.injEq] at h
            subst h
            have := ih ms0 hr
            simp only [List.length_cons]
            omega
    | null => have := ih ms h; simp only [List.length_cons]; omega
    | bool b => have := ih ms h; simp only [List.length_cons]; omega
    | num n => have := ih ms h; simp only [List.length_cons]; omega
    | str s => have := ih ms h; simp only [List.length_cons]; omega
    | arr xs => have := ih ms h; simp only [List.length_cons]; omega

theorem validate_mcqs_options (l : List Json) (ms : List MCQ)
    (h : validate_mcqs l = Except.ok ms) : ∀ m ∈ ms, m.options.length = 4 := by
  induction l generalizing ms with
  | nil =>
      simp only [validate_mcqs, Except.ok.injEq] at h
      subst h; intro m hm; cases hm
  | cons x rest ih =>
    cases x with
    | obj mkvs =>
        unfold validate_mcqs at h
        cases hm : validate_mcq mkvs with
        | error e => rw [hm] at h; exact absurd h (by simp)
        | ok m =>
          rw [hm] at h
          dsimp only at h
          cases hr : validate_mcqs rest with
          | error e => rw [hr] at h; exact absurd h (by simp)
          | ok ms0 =>
            rw [hr] at h
            simp only [Except.ok.injEq] at h
            subst h
            intro m' hm'
            rcases List.mem_cons.mp hm' with h1 | h1
            · subst h1; exact validate_mcq_options _ _ hm
            · exact ih ms0 hr m' h1
    | null => exact ih ms h
    | bool b => exact ih ms h
    | num n => exact ih ms h
    | str s => exact ih ms h
    | arr xs => exact ih ms h

theorem validate_flashcards_length (l : List Json) :
    (validate_flashcards l).length ≤ l.length := by
  induction l with
  | nil => simp [validate_flashcards]
  | cons x rest ih =>
    cases x with
    | obj ckvs => simp only [validate_flashcards, List.length_cons]; omega
    | null => simp only [validate_flashcards, List.length_cons]; omega
    | bool b => simp only [validate_flashcards, List.length_cons]; omega
    | num n => simp only [validate_flashcards, List.length_cons]; omega
    | str s => simp only [validate_flashcards, List.length_cons]; omega
    | arr xs => simp only [validate_flashcards, List.length_cons]; omega

theorem validate_mcqs_all_ok (l : List Json) (h : l.all options_is_list = true) :
    ∃ ms, validate_mcqs l = Except.ok ms := by
  induction l with
  | nil => exact ⟨[], rfl⟩
  | cons x rest ih =>
    rw [List.all_cons, Bool.and_eq_true] at h
    obtain ⟨hx, hrest⟩ := h
    obtain ⟨ms0, hms0⟩ := ih hrest
    cases x with
    | obj mkvs =>
        cases ho : dictGet mkvs "options" (Json.arr []) with
        | arr xs =>
            have hm : validate_mcq mkvs = Except.ok
                { question := pyStr (dictGet mkvs "question" (Json.str "Question"))
                  options := ((padLoop 4 xs).take 4).map pyStr
                  answer := pyUpper (pyStr (dictGet mkvs "answer" (Json.str "A"))) } := by
              unfold validate_mcq
              rw [ho, fix_options_arr]
            refine ⟨{ question := pyStr (dictGet mkvs "question" (Json.str "Question"))
                      options := ((padLoop 4 xs).take 4).map pyStr
                      answer := pyUpper (pyStr (dictGet mkvs "answer" (Json.str "A"))) } :: ms0, ?_⟩
            unfold validate_mcqs
            rw [hm]
            dsimp only
            rw [hms0]
        | null => simp [options_is_list, ho] at hx
        | bool b => simp [options_is_list, ho] at hx
        | num n => simp [options_is_list, ho] at hx
        | str s => simp [options_is_list, ho] at hx
        | obj kvs2 => simp [options_is_list, ho] at hx
    | null => exact ⟨ms0, hms0⟩
    | bool b => exact ⟨ms0, hms0⟩
    | num n => exact ⟨ms0, hms0⟩
    | str s => exact ⟨ms0, hms0⟩
    | arr xs => exact ⟨ms0, hms0⟩

/-! ### Claims C1 and C2 -/

/-- C1 (counterexample): the claim "validate_study_data never raises, even
for mappings whose fields hold values of unexpected types (e.g. an mcq
whose options field is not a sequence)" is false: on
`\x7b"mcqs": [\x7b"options": 5\x7d]\x7d` the code calls `len(5)` and raises a
`TypeError`, which the embedding reports as an error outcome. -/
theorem validate_study_data_errors_on_numeric_options :
    (validate_study_data (Json.obj [("mcqs", Json.arr [Json.obj [("options", Json.num 5)]])])).isOk
      = false := rfl

/-- C1 (amended): the normalize step terminates and returns a `StudyData`
without raising for every JSON dict input whose first five mcq elements,
when they are dicts, hold a sequence (or nothing) under "options"; for
other structured inputs (a non-dict top level, or a non-sequence options
value such as a number) it can raise, and the orchestrator's outer
`except` block converts that into a failure result. -/
theorem validate_study_data_total_on_safe_inputs (j : Json) (h : safe_input j = true) :
    (validate_study_data j).isOk = true := by
  cases j with
  | obj kvs =>
      unfold validate_study_data
      dsimp only
      cases hm : dictGet kvs "mcqs" (Json.arr []) with
      | arr ms =>
          have hall : (ms.take 5).all options_is_list = true := by
            unfold safe_input at h
            dsimp only at h
            rw [hm] at h
            exact h
          obtain ⟨msv, hv⟩ := validate_mcqs_all_ok _ hall
          dsimp only
          rw [hv]
          rfl
      | null => rfl
      | bool b => rfl
      | num n => rfl
      | str s => rfl
      | obj kvs2 => rfl
  | null => simp [safe_input] at h
  | bool b => simp [safe_input] at h
  | num n => simp [safe_input] at h
  | str s => simp [safe_input] at h
  | arr xs => simp [safe_input] at h

/-- C1 witness: a concrete safe input (non-list notes value, an mcq with a
short option list, a skipped non-dict mcq element) on which the amended
theorem applies. -/
theorem validate_study_data_total_on_safe_inputs_witness :
    safe_input (Json.obj [("notes", Json.str "n"),
      ("mcqs", Json.arr [Json.obj [("options", Json.arr [Json.str "x"])], Json.str "skip"])]) = true
    ∧ (validate_study_data (Json.obj [("notes", Json.str "n"),
      ("mcqs", Json.arr [Json.obj [("options", Json.arr [Json.str "x"])], Json.str "skip"])])).isOk = true :=
  ⟨rfl, validate_study_data_total_on_safe_inputs _ rfl⟩

/-- C2: whenever the normalize step returns, the result has at most 5
mcqs, every mcq has exactly 4 options, and at most 3 flashcards. -/
theorem validate_study_data_output_shape (j : Json) (sd : StudyData)
    (h : validate_study_data j = Except.ok sd) :
    sd.mcqs.length ≤ 5 ∧ (∀ m ∈ sd.mcqs, m.options.length = 4) ∧ sd.flashcards.length ≤ 3 := by
  cases j with
  | obj kvs =>
      unfold validate_study_data at h
      dsimp only at h
      cases hv : validate_mcqs ((match dictGet kvs "mcqs" (Json.arr []) with
          | Json.arr xs => xs
          | _ => []).take 5) with
      | error e => rw [hv] at h; exact absurd h (by simp)
      | ok ms =>
        rw [hv] at h
        simp only [Except.ok.injEq] at h
        subst h
        dsimp only
        refine ⟨?_, ?_, ?_⟩
        · have h1 := validate_mcqs_length _ _ hv
          have h2 : ((match dictGet kvs "mcqs" (Json.arr []) with
              | Json.arr xs => xs
              | _ => []).take 5).length ≤ 5 := by
            simp [List.length_take]
          omega
        · exact validate_mcqs_options _ _ hv
        · have h1 := validate_flashcards_length ((match dictGet kvs "flashcards" (Json.arr []) with
            | Json.arr xs => xs
            | _ => []).take 3)
          have h2 : ((match dictGet kvs "flashcards" (Json.arr []) with
              | Json.arr xs => xs
              | _ => []).take 3).length ≤ 3 := by
            simp [List.length_take]
          omega
  | null => exact absurd h (by simp [validate_study_data])
  | bool b => exact absurd h (by simp [validate_study_data])
  | num n => exact absurd h (by simp [validate_study_data])
  | str s => exact absurd h (by simp [validate_study_data])
  | arr xs => exact absurd h (by simp [validate_study_data])

/-- C2 witness: the shape property evaluated on a concrete normalize run
(an mcq with a single option gets padded to exactly 4). -/
theorem validate_study_data_output_shape_witness :
    (let sd : StudyData :=
      { notes := [], flashcards := []
        mcqs := [{ question := "Question"
                   options := ["A) x", "B) Option 2", "C) Option 3", "D) Option 4"]
                   answer := "A" }] }
     sd.mcqs.length ≤ 5 ∧ (∀ m ∈ sd.mcqs, m.options.length = 4) ∧ sd.flashcards.length ≤ 3) :=
  validate_study_data_output_shape
    (Json.obj [("mcqs", Json.arr [Json.obj [("options", Json.arr [Json.str "A) x"])]])]) _ rfl

/-! ### Claims C3 and C4: the orchestrator (a code bug)

The committed `generate_study_material` cannot run at all — the module is
a SyntaxError (see the header note) — so the behaviours these claims
describe cannot be produced by the committed program.  The theorems below
establish that the spec's described behaviour is exactly what the
intended control flow produces, supporting the code-bug classification:
the spec is the intent and the indentation slip is the defect. -/

/-- C3 (code bug): the committed module is a SyntaxError and cannot serve
any request, so the claimed behaviour cannot occur; under the intended
control flow (the spec's evident intent, with the dedented block restored
into the `try:`), a topic that trims to the empty string fails with
exactly "Topic cannot be empty", no data, and the upstream completion
call is never issued (and the sanitizer never runs). -/
theorem generate_intended_empty_topic (parse : String → Except String Json)
    (upstream : Except String String) (topic : String) (h : pyStrip topic = "") :
    generate_study_material_intended parse upstream topic =
      { response := { success := false, data := none, error := some "Topic cannot be empty" }
        upstreamCalled := false, normalizeCalled := false } := by
  unfold generate_study_material_intended
  rw [h]
  simp

/-- C3 witness: a whitespace-only topic with concrete external
capabilities. -/
theorem generate_intended_empty_topic_witness :
    pyStrip "   " = ""
    ∧ generate_study_material_intended (fun _ => Except.error "unused") (Except.ok "unused") "   " =
      { response := { success := false, data := none, error := some "Topic cannot be empty" }
        upstreamCalled := false, normalizeCalled := false } :=
  ⟨rfl, generate_intended_empty_topic _ _ _ rfl⟩

/-- C4 (code bug): the committed module is a SyntaxError and cannot serve
any request, so the claimed behaviour cannot occur; under the intended
control flow, when the fence-stripped upstream text fails to decode,
generation fails with the decode error appended to
"Failed to parse AI response: ", no data, and the sanitizer (normalize)
is never invoked. -/
theorem generate_intended_parse_failure (parse : String → Except String Json)
    (text topic e : String) (h1 : ¬ pyStrip topic = "")
    (h2 : parse (clean_json_response text) = Except.error e) :
    generate_study_material_intended parse (Except.ok text) topic =
      { response := { success := false, data := none
                      error := some ("Failed to parse AI response: " ++ e) }
        upstreamCalled := true, normalizeCalled := false } := by
  unfold generate_study_material_intended
  rw [if_neg h1]
  dsimp only
  rw [h2]

/-- C4 witness: a non-JSON upstream text with a decoder that rejects it. -/
theorem generate_intended_parse_failure_witness :
    ¬ pyStrip "math" = ""
    ∧ (fun _ => Except.error "Expecting value: line 1 column 1 (char 0)" :
        String → Except String Json) (clean_json_response "not json") =
        Except.error "Expecting value: line 1 column 1 (char 0)"
    ∧ generate_study_material_intended
        (fun _ => Except.error "Expecting value: line 1 column 1 (char 0)")
        (Except.ok "not json") "math" =
      { response := { success := false, data := none
                      error := some ("Failed to parse AI response: " ++
                        "Expecting value: line 1 column 1 (char 0)") }
        upstreamCalled := true, normalizeCalled := false } :=
  ⟨by decide, rfl, generate_intended_parse_failure _ _ _ _ (by decide) rfl⟩

/-! ### Claim C5: option padding and truncation -/

/-- C5: an options list shorter than 4 is padded by appending
`synthOption` placeholders (letter = letter at index `count`, position =
`count + 1`) up to length 4, a list longer than 4 is truncated to its
first 4 entries (so no item is both padded and truncated), and the two
spec examples evaluate as stated. -/
theorem fix_options_pad_truncate :
    (∀ opts : List Json, opts.length < 4 →
       fix_options (Json.arr opts) =
         Except.ok (opts.map pyStr ++
           (List.range (4 - opts.length)).map (fun i => synthOption (opts.length + i))))
    ∧ (∀ opts : List Json, 4 < opts.length →
       fix_options (Json.arr opts) = Except.ok ((opts.take 4).map pyStr))
    ∧ validate_study_data (Json.obj [("mcqs", Json.arr [Json.obj [("options",
        Json.arr [Json.str "A) x"])]])]) =
      Except.ok { notes := [], flashcards := []
                  mcqs := [{ question := "Question"
                             options := ["A) x", "B) Option 2", "C) Option 3", "D) Option 4"]
                             answer := "A" }] }
    ∧ validate_study_data (Json.obj [("mcqs", Json.arr [Json.obj [("options",
        Json.arr [Json.str "a", Json.str "b", Json.str "c", Json.str "d", Json.str "e"])]])]) =
      Except.ok { notes := [], flashcards := []
                  mcqs := [{ question := "Question"
                             options := ["a", "b", "c", "d"]
                             answer := "A" }] } := by
  refine ⟨?_, ?_, rfl, rfl⟩
  · intro opts h
    match opts with
    | [] => rfl
    | [a] => rfl
    | [a, b] => rfl
    | [a, b, c] => rfl
    | a :: b :: c :: d :: rest => simp at h; omega
  · intro opts h
    rw [fix_options_arr, padLoop_ge _ _ (by omega)]

/-- C5 witness: the two general branches applied to the spec's concrete
option lists. -/
theorem fix_options_pad_truncate_witness :
    (([Json.str "A) x"] : List Json).length < 4
      ∧ fix_options (Json.arr [Json.str "A) x"]) =
          Except.ok ["A) x", "B) Option 2", "C) Option 3", "D) Option 4"])
    ∧ (4 < ([Json.str "a", Json.str "b", Json.str "c", Json.str "d", Json.str "e"] : List Json).length
      ∧ fix_options (Json.arr [Json.str "a", Json.str "b", Json.str "c", Json.str "d", Json.str "e"]) =
          Except.ok ["a", "b", "c", "d"]) :=
  ⟨⟨by decide, fix_options_pad_truncate.1 _ (by decide)⟩,
   ⟨by decide, fix_options_pad_truncate.2.1 _ (by decide)⟩⟩

/-! ### Claim C6: the answer field -/

/-- C6: the answer of a validated mcq is the uppercased string form of the
source answer value; it defaults to the literal "A" when the key is
absent; and the spec's example (`answer: "b"` with no options) yields
answer "B" with four synthesized placeholder options. -/
theorem validate_mcq_answer :
    (∀ mkvs m, validate_mcq mkvs = Except.ok m →
       m.answer = pyUpper (pyStr (dictGet mkvs "answer" (Json.str "A"))))
    ∧ (∀ mkvs m, List.find? (fun kv => kv.1 == "answer") mkvs = none →
       validate_mcq mkvs = Except.ok m → m.answer = "A")
    ∧ validate_study_data (Json.obj [("mcqs", Json.arr [Json.obj [("answer", Json.str "b")]])]) =
      Except.ok { notes := [], flashcards := []
                  mcqs := [{ question := "Question"
                             options := ["A) Option 1", "B) Option 2", "C) Option 3", "D) Option 4"]
                             answer := "B" }] } := by
  have hgen : ∀ mkvs m, validate_mcq mkvs = Except.ok m →
      m.answer = pyUpper (pyStr (dictGet mkvs "answer" (Json.str "A"))) := by
    intro mkvs m h
    unfold validate_mcq at h
    cases hf : fix_options (dictGet mkvs "options" (Json.arr [])) with
    | error e => rw [hf] at h; exact absurd h (by simp)
    | ok opts =>
      rw [hf] at h
      simp only [Except.ok.injEq] at h
      subst h
      rfl
  refine ⟨hgen, ?_, rfl⟩
  intro mkvs m hfind h
  rw [hgen mkvs m h]
  unfold dictGet
  rw [hfind]
  rfl

/-- C6 witness: both general conjuncts applied to the concrete mcq dict
`\x7b"answer": "b"\x7d` (for the uppercase part) and `\x7b\x7d` (for the default). -/
theorem validate_mcq_answer_witness :
    (validate_mcq [("answer", Json.str "b")] = Except.ok
       { question := "Question"
         options := ["A) Option 1", "B) Option 2", "C) Option 3", "D) Option 4"]
         answer := "B" }
      ∧ ({ question := "Question"
           options := ["A) Option 1", "B) Option 2", "C) Option 3", "D) Option 4"]
           answer := "B" } : MCQ).answer = pyUpper (pyStr (dictGet [("answer", Json.str "b")] "answer" (Json.str "A"))))
    ∧ (List.find? (fun kv => kv.1 == "answer") ([] : List (String × Json)) = none
      ∧ ({ question := "Question"
           options := ["A) Option 1", "B) Option 2", "C) Option 3", "D) Option 4"]
           answer := "A" } : MCQ).answer = "A") :=
  ⟨⟨rfl, validate_mcq_answer.1 _ _ rfl⟩,
   ⟨rfl, validate_mcq_answer.2.1 [] _ rfl rfl⟩⟩

/-! ### Claim C7: the answer is uppercased but not a single letter -/

theorem char_toNat_ofNat_of_valid (n : Nat) (h : n.isValidChar) :
    (Char.ofNat n).toNat = n := by
  rw [Char.ofNat, dif_pos h]
  rfl

theorem char_toUpper_toUpper (c : Char) : c.toUpper.toUpper = c.toUpper := by
  unfold Char.toUpper
  by_cases h : c.toNat ≥ 97 ∧ c.toNat ≤ 122
  · rw [if_pos h]
    have hv : (c.toNat - 32).isValidChar := Or.inl (by omega)
    have he := char_toNat_ofNat_of_valid (c.toNat - 32) hv
    rw [he, if_neg (by omega)]
  · rw [if_neg h, if_neg h]

theorem pyUpper_pyUpper (s : String) : pyUpper (pyUpper s) = pyUpper s := by
  unfold pyUpper
  simp only [List.map_map]
  congr 1
  apply List.map_congr_left
  intro c _
  exact char_toUpper_toUpper c

theorem validate_mcqs_mem (l : List Json) (ms : List MCQ)
    (h : validate_mcqs l = Except.ok ms) :
    ∀ m ∈ ms, ∃ mkvs, validate_mcq mkvs = Except.ok m := by
  induction l generalizing ms with
  | nil =>
      simp only [validate_mcqs, Except.ok.injEq] at h
      subst h; intro m hm; cases hm
  | cons x rest ih =>
    cases x with
    | obj mkvs =>
        unfold validate_mcqs at h
        cases hm : validate_mcq mkvs with
        | error e => rw [hm] at h; exact absurd h (by simp)
        | ok m =>
          rw [hm] at h
          dsimp only at h
          cases hr : validate_mcqs rest with
          | error e => rw [hr] at h; exact absurd h (by simp)
          | ok ms0 =>
            rw [hr] at h
            simp only [Except.ok.injEq] at h
            subst h
            intro m' hm'
            rcases List.mem_cons.mp hm' with h1 | h1
            · subst h1; exact ⟨mkvs, hm⟩
            · exact ih ms0 hr m' h1
    | null => exact ih ms h
    | bool b => exact ih ms h
    | num n => exact ih ms h
    | str s => exact ih ms h
    | arr xs => exact ih ms h

theorem validate_study_data_mcqs_mem (j : Json) (sd : StudyData)
    (h : validate_study_data j = Except.ok sd) :
    ∀ m ∈ sd.mcqs, ∃ mkvs, validate_mcq mkvs = Except.ok m := by
  cases j with
  | obj kvs =>
      unfold validate_study_data at h
      dsimp only at h
      cases hv : validate_mcqs ((match dictGet kvs "mcqs" (Json.arr []) with
          | Json.arr xs => xs
          | _ => []).take 5) with
      | error e => rw [hv] at h; exact absurd h (by simp)
      | ok ms =>
        rw [hv] at h
        simp only [Except.ok.injEq] at h
        subst h
        exact validate_mcqs_mem _ _ hv
  | null => exact absurd h (by simp [validate_study_data])
  | bool b => exact absurd h (by simp [validate_study_data])
  | num n => exact absurd h (by simp [validate_study_data])
  | str s => exact absurd h (by simp [validate_study_data])
  | arr xs => exact absurd h (by simp [validate_study_data])

/-- C7 (counterexample): the claim "every mcq's answer is a single
uppercase letter" is false: on `\x7b"mcqs": [\x7b"answer": "ok"\x7d]\x7d` the
code returns the two-character answer "OK" (uppercased pass-through, not
a letter token). -/
theorem validate_study_data_answer_not_single_letter :
    validate_study_data (Json.obj [("mcqs", Json.arr [Json.obj [("answer", Json.str "ok")]])]) =
      Except.ok { notes := [], flashcards := []
                  mcqs := [{ question := "Question"
                             options := ["A) Option 1", "B) Option 2", "C) Option 3", "D) Option 4"]
                             answer := "OK" }] }
    ∧ "OK".length = 2 := ⟨rfl, rfl⟩

/-- C7 (amended): every mcq answer produced by the normalize step is an
uppercased string — uppercasing it again changes nothing — with no
restriction to the range A–D and no guarantee that it is a single
character. -/
theorem validate_study_data_answers_uppercased (j : Json) (sd : StudyData)
    (h : validate_study_data j = Except.ok sd) :
    ∀ m ∈ sd.mcqs, pyUpper m.answer = m.answer := by
  intro m hm
  obtain ⟨mkvs, hmk⟩ := validate_study_data_mcqs_mem j sd h m hm
  unfold validate_mcq at hmk
  cases hf : fix_options (dictGet mkvs "options" (Json.arr [])) with
  | error e => rw [hf] at hmk; exact absurd hmk (by simp)
  | ok opts =>
    rw [hf] at hmk
    simp only [Except.ok.injEq] at hmk
    subst hmk
    exact pyUpper_pyUpper _

/-- C7 witness: the amended theorem applied to the "OK" run above. -/
theorem validate_study_data_answers_uppercased_witness :
    pyUpper "OK" = "OK" :=
  validate_study_data_answers_uppercased
    (Json.obj [("mcqs", Json.arr [Json.obj [("answer", Json.str "ok")]])])
    { notes := [], flashcards := []
      mcqs := [{ question := "Question"
                 options := ["A) Option 1", "B) Option 2", "C) Option 3", "D) Option 4"]
                 answer := "OK" }] }
    rfl
    { question := "Question"
      options := ["A) Option 1", "B) Option 2", "C) Option 3", "D) Option 4"]
      answer := "OK" }
    (by simp)

/-! ### Claim C9: idempotence on conformant input -/

theorem dictGet3_notes (a b c d : Json) :
    dictGet [("notes", a), ("mcqs", b), ("flashcards", c)] "notes" d = a := rfl

theorem dictGet3_mcqs (a b c d : Json) :
    dictGet [("notes", a), ("mcqs", b), ("flashcards", c)] "mcqs" d = b := rfl

theorem dictGet3_flashcards (a b c d : Json) :
    dictGet [("notes", a), ("mcqs", b), ("flashcards", c)] "flashcards" d = c := rfl

theorem map_pyStr_str (l : List String) : (l.map Json.str).map pyStr = l := by
  induction l with
  | nil => rfl
  | cons x rest ih => simp only [List.map_cons, pyStr, ih]

theorem notes_roundtrip (ns : List String) (h : ∀ s ∈ ns, s ≠ "") :
    ((ns.map Json.str).filter pyTruthy).map pyStr = ns := by
  induction ns with
  | nil => rfl
  | cons x rest ih =>
    have hx : x ≠ "" := h x (List.mem_cons_self _ _)
    have hx2 : pyTruthy (Json.str x) = true := by
      simp only [pyTruthy, Bool.not_eq_true']
      exact Bool.eq_false_iff.mpr (fun he => hx ((String.isEmpty_iff x).mp he))
    simp only [List.map_cons, List.filter_cons, hx2, if_true, List.map_cons, pyStr]
    rw [ih (fun s hs => h s (List.mem_cons_of_mem _ hs))]

theorem validate_mcq_conformant (m : MCQ) (hlen : m.options.length = 4)
    (hans : pyUpper m.answer = m.answer) :
    validate_mcq [("question", Json.str m.question),
                  ("options", Json.arr (m.options.map Json.str)),
                  ("answer", Json.str m.answer)] = Except.ok m := by
  have hfix : fix_options (Json.arr (m.options.map Json.str)) = Except.ok m.options := by
    rw [fix_options_arr]
    have hl : ¬ (m.options.map Json.str).length < 4 := by
      simp only [List.length_map]; omega
    rw [padLoop_ge _ _ hl, List.take_of_length_le (by simp only [List.length_map]; omega),
        map_pyStr_str]
  unfold validate_mcq
  have hget : dictGet [("question", Json.str m.question),
      ("options", Json.arr (m.options.map Json.str)),
      ("answer", Json.str m.answer)] "options" (Json.arr []) =
      Json.arr (m.options.map Json.str) := rfl
  rw [hget, hfix]
  dsimp only
  have hq : pyStr (dictGet [("question", Json.str m.question),
      ("options", Json.arr (m.options.map Json.str)),
      ("answer", Json.str m.answer)] "question" (Json.str "Question")) = m.question := rfl
  have ha : pyStr (dictGet [("question", Json.str m.question),
      ("options", Json.arr (m.options.map Json.str)),
      ("answer", Json.str m.answer)] "answer" (Json.str "A")) = m.answer := rfl
  rw [hq, ha, hans]

theorem validate_mcqs_conformant (ms : List MCQ)
    (hopts : ∀ m ∈ ms, m.options.length = 4)
    (hans : ∀ m ∈ ms, pyUpper m.answer = m.answer) :
    validate_mcqs (ms.map mcqToJson) = Except.ok ms := by
  induction ms with
  | nil => rfl
  | cons m rest ih =>
    have h1 := validate_mcq_conformant m (hopts m (List.mem_cons_self _ _))
      (hans m (List.mem_cons_self _ _))
    simp only [List.map_cons, mcqToJson]
    unfold validate_mcqs
    rw [h1]
    dsimp only
    rw [ih (fun x hx => hopts x (List.mem_cons_of_mem _ hx))
          (fun x hx => hans x (List.mem_cons_of_mem _ hx))]

theorem validate_flashcards_conformant (cs : List Flashcard) :
    validate_flashcards (cs.map flashcardToJson) = cs := by
  induction cs with
  | nil => rfl
  | cons c rest ih =>
    simp only [List.map_cons, flashcardToJson]
    unfold validate_flashcards
    rw [ih]
    rfl

/-- C9: on input already conformant to the output schema (non-empty note
strings, at most 5 mcqs with exactly 4 options and an uppercased answer,
at most 3 flashcards), the normalize step returns exactly those values
unchanged. -/
theorem validate_study_data_idempotent (sd : StudyData)
    (hnotes : ∀ s ∈ sd.notes, s ≠ "")
    (hm5 : sd.mcqs.length ≤ 5)
    (hopts : ∀ m ∈ sd.mcqs, m.options.length = 4)
    (hans : ∀ m ∈ sd.mcqs, pyUpper m.answer = m.answer)
    (hf3 : sd.flashcards.length ≤ 3) :
    validate_study_data (studyDataToJson sd) = Except.ok sd := by
  unfold studyDataToJson validate_study_data
  dsimp only
  rw [dictGet3_notes, dictGet3_mcqs, dictGet3_flashcards]
  dsimp only
  rw [List.take_of_length_le (by simp only [List.length_map]; exact hm5),
      validate_mcqs_conformant sd.mcqs hopts hans]
  dsimp only
  rw [List.take_of_length_le (by simp only [List.length_map]; exact hf3),
      validate_flashcards_conformant, notes_roundtrip sd.notes hnotes]

/-- C9 witness: a concrete conformant study data value round-trips. -/
theorem validate_study_data_idempotent_witness :
    validate_study_data (studyDataToJson
      { notes := ["a note"]
        mcqs := [{ question := "Q", options := ["A) 1", "B) 2", "C) 3", "D) 4"], answer := "A" }]
        flashcards := [{ front := "f", back := "b" }] }) =
    Except.ok
      { notes := ["a note"]
        mcqs := [{ question := "Q", options := ["A) 1", "B) 2", "C) 3", "D) 4"], answer := "A" }]
        flashcards := [{ front := "f", back := "b" }] } :=
  validate_study_data_idempotent _ (by decide) (by decide) (by decide) (by decide) (by decide)

/-! ### Helper lemmas: the fence-substitution scanner -/

theorem pySubGo_fuel (pat : List Char) (hpat : pat ≠ []) :
    ∀ f1 f2 l, l.length ≤ f1 → l.length ≤ f2 → pySubGo pat f1 l = pySubGo pat f2 l := by
  intro f1
  induction f1 with
  | zero =>
    intro f2 l h1 _
    have : l = [] := List.eq_nil_of_length_eq_zero (by omega)
    subst this
    cases f2 <;> rfl
  | succ g ih =>
    intro f2 l h1 h2
    cases l with
    | nil => cases f2 <;> rfl
    | cons c rest =>
      cases f2 with
      | zero => simp at h2
      | succ h =>
        by_cases hp : pat.isPrefixOf (c :: rest) = true
        · simp only [pySubGo, hp, if_true]
          apply ih
          · have hd : ((c :: rest).drop pat.length).length ≤ rest.length := by
              have hp1 : 1 ≤ pat.length := by
                cases pat with
                | nil => exact absurd rfl hpat
                | cons _ _ => simp
              simp only [List.length_drop, List.length_cons]
              omega
            have hw := (List.dropWhile_sublist (l := (c :: rest).drop pat.length) pyIsSpace).length_le
            simp only [List.length_cons] at h1
            omega
          · have hd : ((c :: rest).drop pat.length).length ≤ rest.length := by
              have hp1 : 1 ≤ pat.length := by
                cases pat with
                | nil => exact absurd rfl hpat
                | cons _ _ => simp
              simp only [List.length_drop, List.length_cons]
              omega
            have hw := (List.dropWhile_sublist (l := (c :: rest).drop pat.length) pyIsSpace).length_le
            simp only [List.length_cons] at h2
            omega
        · have hp' : pat.isPrefixOf (c :: rest) = false := by
            rwa [Bool.not_eq_true] at hp
          simp only [pySubGo, hp', if_false, Bool.false_eq_true]
          have hrec := ih h rest (by simp only [List.length_cons] at h1; omega)
            (by simp only [List.length_cons] at h2; omega)
          rw [hrec]

theorem pySubDel_nomatch (pat : List Char) (c : Char) (rest : List Char)
    (h : pat.isPrefixOf (c :: rest) = false) :
    pySubDel pat (c :: rest) = c :: pySubDel pat rest := by
  unfold pySubDel
  simp only [List.length_cons, pySubGo, h, if_false, Bool.false_eq_true]

theorem pySubDel_match (pat : List Char) (c : Char) (rest : List Char) (hpat : pat ≠ [])
    (h : pat.isPrefixOf (c :: rest) = true) :
    pySubDel pat (c :: rest) = pySubDel pat (((c :: rest).drop pat.length).dropWhile pyIsSpace) := by
  unfold pySubDel
  simp only [List.length_cons, pySubGo, h, if_true]
  apply pySubGo_fuel pat hpat
  · have hp1 : 1 ≤ pat.length := by
      cases pat with
      | nil => exact absurd rfl hpat
      | cons _ _ => simp
    have hd : ((c :: rest).drop pat.length).length ≤ rest.length := by
      simp only [List.length_drop, List.length_cons]
      omega
    have hw := (List.dropWhile_sublist (l := (c :: rest).drop pat.length) pyIsSpace).length_le
    omega
  · exact le_rfl

theorem isPrefixOf_append_self : ∀ p t : List Char, p.isPrefixOf (p ++ t) = true := by
  intro p
  induction p with
  | nil => intro t; simp [List.isPrefixOf]
  | cons c p' ih =>
    intro t
    simp only [List.cons_append, List.isPrefixOf_cons₂_self, ih]

theorem not_isPrefixOf_of_head_ne (pat : List Char) (b : Char) (hp : pat.head? = some b)
    (c : Char) (rest : List Char) (hc : c ≠ b) : pat.isPrefixOf (c :: rest) = false := by
  cases pat with
  | nil => simp at hp
  | cons p0 p' =>
    simp only [List.head?_cons, Option.some.injEq] at hp
    subst hp
    simp only [List.isPrefixOf_cons₂, Bool.and_eq_false_iff]
    left
    exact beq_eq_false_iff_ne.mpr (fun he => hc he.symm)

theorem pySubDel_passthrough (pat : List Char)
    (hp : pat.head? = some backtick) :
    ∀ m tail : List Char, (∀ c ∈ m, c ≠ backtick) →
      pySubDel pat (m ++ tail) = m ++ pySubDel pat tail := by
  intro m
  induction m with
  | nil => intro tail _; rfl
  | cons c m' ih =>
    intro tail hm
    have hc : c ≠ backtick := hm c (List.mem_cons_self _ _)
    rw [List.cons_append,
        pySubDel_nomatch pat c (m' ++ tail) (not_isPrefixOf_of_head_ne pat backtick hp c _ hc),
        ih tail (fun x hx => hm x (List.mem_cons_of_mem _ hx))]
    rfl

/-! ### Claim C8: fence stripping -/

theorem dropWhile_append_cons (p : Char → Bool) (c : Char) (t : List Char) (hc : p c = false) :
    ∀ m : List Char, List.dropWhile p (m ++ c :: t) = List.dropWhile p m ++ c :: t := by
  intro m
  induction m with
  | nil => simp [List.dropWhile_cons, hc]
  | cons a m' ih =>
    by_cases ha : p a = true
    · simp only [List.cons_append, List.dropWhile_cons, ha, if_true, ih]
    · have ha' : p a = false := by rwa [Bool.not_eq_true] at ha
      simp only [List.cons_append, List.dropWhile_cons, ha', if_false, Bool.false_eq_true]

theorem pyStripL_dropWhile (l : List Char) :
    pyStripL (l.dropWhile pyIsSpace) = pyStripL l := by
  unfold pyStripL
  rw [List.dropWhile_idempotent]

theorem pySubDel_match_list (pat l : List Char) (hpat : pat ≠ []) (hl : l ≠ [])
    (h : pat.isPrefixOf l = true) :
    pySubDel pat l = pySubDel pat ((l.drop pat.length).dropWhile pyIsSpace) := by
  cases l with
  | nil => exact absurd rfl hl
  | cons c rest => exact pySubDel_match pat c rest hpat h

/-- C8: `clean_json_response` removes a leading code fence with language
tag and a trailing code fence around any backtick-free payload and trims
the surrounding whitespace (it is a total function), and the spec's
concrete example evaluates as stated. -/
theorem clean_json_response_strips_fences :
    (∀ s : String, noBacktick s = true →
       clean_json_response ("```json" ++ s ++ "```") = pyStrip s)
    ∧ clean_json_response "```json\n\x7b\"notes\":[]\x7d\n```" = "\x7b\"notes\":[]\x7d" := by
  refine ⟨?_, by decide⟩
  intro s h
  have hmem : ∀ c ∈ s.data, c ≠ backtick := by
    intro c hc
    have := List.all_eq_true.mp h c hc
    simpa using this
  have hsub : ∀ c ∈ s.data.dropWhile pyIsSpace, c ≠ backtick :=
    fun c hc => hmem c ((List.dropWhile_sublist pyIsSpace).subset hc)
  unfold clean_json_response
  have hdata : ("```json" ++ s ++ "```").data = fenceJson ++ (s.data ++ fenceL) := by
    simp only [String.data_append, List.append_assoc]
    rfl
  rw [hdata]
  have hfl : fenceL = backtick :: "``".data := by decide
  have h1 : pySubDel fenceJson (fenceJson ++ (s.data ++ fenceL)) =
      s.data.dropWhile pyIsSpace ++ fenceL := by
    rw [pySubDel_match_list fenceJson _ (by decide)
          (by intro h0; rw [List.append_eq_nil] at h0; exact absurd h0.1 (by decide))
          (isPrefixOf_append_self _ _),
        List.drop_left,
        show s.data ++ fenceL = s.data ++ backtick :: "``".data from by rw [hfl],
        dropWhile_append_cons pyIsSpace backtick _ (by decide),
        pySubDel_passthrough fenceJson (by decide) _ _ hsub,
        show pySubDel fenceJson (backtick :: "``".data) = backtick :: "``".data from by decide,
        ← hfl]
  have h2 : pySubDel fenceL (s.data.dropWhile pyIsSpace ++ fenceL) =
      s.data.dropWhile pyIsSpace := by
    rw [pySubDel_passthrough fenceL (by decide) _ _ hsub,
        show pySubDel fenceL fenceL = [] from by decide,
        List.append_nil]
  rw [h1, h2]
  unfold pyStrip
  rw [show (String.mk (s.data.dropWhile pyIsSpace)).data = s.data.dropWhile pyIsSpace from rfl,
      pyStripL_dropWhile]

/-- C8 witness: the general fence-removal branch applied to the concrete
backtick-free payload of the spec example. -/
theorem clean_json_response_strips_fences_witness :
    noBacktick "\n\x7b\"notes\":[]\x7d\n" = true
    ∧ clean_json_response ("```json" ++ "\n\x7b\"notes\":[]\x7d\n" ++ "```") =
        pyStrip "\n\x7b\"notes\":[]\x7d\n" :=
  ⟨by decide, clean_json_response_strips_fences.1 _ (by decide)⟩

/-! ### Claim C10: no fence marker survives anywhere in the output -/

theorem fence_isPrefixOf_shape (l : List Char) (h : fenceL.isPrefixOf l = true) :
    ∃ t, l = backtick :: backtick :: backtick :: t := by
  match l with
  | [] => simp [fenceL, List.isPrefixOf] at h
  | [a] => simp [fenceL, List.isPrefixOf] at h
  | [a, b] => simp [fenceL, List.isPrefixOf] at h
  | a :: b :: c :: t =>
    have : fenceL = backtick :: backtick :: backtick :: [] := by decide
    rw [this] at h
    simp only [List.isPrefixOf_cons₂, List.isPrefixOf, Bool.and_eq_true, beq_iff_eq,
      Bool.and_true] at h
    obtain ⟨h1, h2, h3⟩ := h
    subst h1; subst h2; subst h3
    exact ⟨t, rfl⟩

theorem fence_not_isPrefixOf_countLead (rest : List Char)
    (h : fenceL.isPrefixOf (backtick :: rest) = false) : countLead rest ≤ 1 := by
  cases rest with
  | nil => simp [countLead]
  | cons d r2 =>
    by_cases hd : d = backtick
    · subst hd
      cases r2 with
      | nil => simp [countLead]
      | cons e r3 =>
        by_cases he : e = backtick
        · subst he
          have : fenceL.isPrefixOf (backtick :: backtick :: backtick :: r3) = true := by
            have hf : fenceL = backtick :: backtick :: backtick :: [] := by decide
            rw [hf]
            simp [List.isPrefixOf_cons₂, List.isPrefixOf]
          rw [this] at h
          cases h
        · have he' : (e == backtick) = false := beq_eq_false_iff_ne.mpr he
          simp [countLead, he']
    · have hd' : (d == backtick) = false := beq_eq_false_iff_ne.mpr hd
      simp [countLead, hd']

theorem hasTriple_cons_iff (c : Char) (m : List Char) :
    hasTriple (c :: m) = true ↔ (c = backtick ∧ 2 ≤ countLead m) ∨ hasTriple m = true := by
  cases m with
  | nil => simp [hasTriple, countLead]
  | cons d r =>
    cases r with
    | nil =>
      by_cases hd : d = backtick
      · subst hd; simp [hasTriple, countLead]
      · have hd' : (d == backtick) = false := beq_eq_false_iff_ne.mpr hd
        simp [hasTriple, countLead, hd']
    | cons e r2 =>
      by_cases hd : d = backtick
      · subst hd
        by_cases he : e = backtick
        · subst he
          simp only [hasTriple, countLead, beq_self_eq_true, Bool.true_and, Bool.or_eq_true,
            beq_iff_eq, if_true]
          have h2 : 2 ≤ 1 + (1 + countLead r2) := by omega
          simp [h2]
        · have he' : (e == backtick) = false := beq_eq_false_iff_ne.mpr he
          have h2 : ¬ 2 ≤ countLead (backtick :: e :: r2) := by
            simp only [countLead, beq_self_eq_true, if_true, he', if_false, Bool.false_eq_true]
            omega
          simp [hasTriple, he', h2]
      · have hd' : (d == backtick) = false := beq_eq_false_iff_ne.mpr hd
        have h2 : ¬ 2 ≤ countLead (d :: e :: r2) := by
          simp only [countLead, hd', if_false, Bool.false_eq_true]
          omega
        simp [hasTriple, hd', h2]

theorem pySubGo_fence_bounds (fuel : Nat) :
    ∀ l : List Char, l.length ≤ fuel →
      countLead (pySubGo fenceL fuel l) ≤ 2 ∧
      countLead (pySubGo fenceL fuel l) ≤ countLead l ∧
      hasTriple (pySubGo fenceL fuel l) = false := by
  induction fuel with
  | zero =>
    intro l hl
    have : l = [] := List.eq_nil_of_length_eq_zero (by omega)
    subst this
    simp [pySubGo, countLead, hasTriple]
  | succ f ih =>
    intro l hl
    cases l with
    | nil => simp [pySubGo, countLead, hasTriple]
    | cons c rest =>
      by_cases hp : fenceL.isPrefixOf (c :: rest) = true
      · obtain ⟨t, ht⟩ := fence_isPrefixOf_shape _ hp
        have hlen : rest.length = t.length + 2 := by
          have := congrArg List.length ht
          simp only [List.length_cons] at this
          omega
        simp only [pySubGo, hp, if_true]
        rw [ht, show (backtick :: backtick :: backtick :: t).drop fenceL.length = t from rfl]
        have hr : (t.dropWhile pyIsSpace).length ≤ f := by
          have hw := (List.dropWhile_sublist (l := t) pyIsSpace).length_le
          simp only [List.length_cons] at hl
          omega
        obtain ⟨a1, a2, a3⟩ := ih _ hr
        refine ⟨a1, ?_, a3⟩
        simp only [countLead, beq_self_eq_true, if_true]
        omega
      · have hp' : fenceL.isPrefixOf (c :: rest) = false := by
          rwa [Bool.not_eq_true] at hp
        simp only [pySubGo, hp', if_false, Bool.false_eq_true]
        obtain ⟨a1, a2, a3⟩ := ih rest (by simp only [List.length_cons] at hl; omega)
        by_cases hc : c = backtick
        · subst hc
          have hr1 : countLead rest ≤ 1 := fence_not_isPrefixOf_countLead rest hp'
          refine ⟨?_, ?_, ?_⟩
          · simp only [countLead, beq_self_eq_true, if_true]
            omega
          · simp only [countLead, beq_self_eq_true, if_true]
            omega
          · rw [Bool.eq_false_iff]
            intro htr
            rcases (hasTriple_cons_iff _ _).mp htr with ⟨-, h2⟩ | h2
            · omega
            · rw [a3] at h2; cases h2
        · have hc' : (c == backtick) = false := beq_eq_false_iff_ne.mpr hc
          refine ⟨?_, ?_, ?_⟩
          · simp [countLead, hc']
          · simp [countLead, hc']
          · rw [Bool.eq_false_iff]
            intro htr
            rcases (hasTriple_cons_iff _ _).mp htr with ⟨h1, -⟩ | h2
            · exact hc h1
            · rw [a3] at h2; cases h2

theorem countLead_cons (c : Char) (l : List Char) :
    countLead (c :: l) = if c == backtick then 1 + countLead l else 0 := rfl

theorem countLead_le_append (m t : List Char) : countLead m ≤ countLead (m ++ t) := by
  induction m with
  | nil => simp [countLead]
  | cons c m' ih =>
    rw [List.cons_append, countLead_cons, countLead_cons]
    by_cases hc : (c == backtick) = true
    · rw [if_pos hc, if_pos hc]
      omega
    · rw [if_neg (by simp_all), if_neg (by simp_all)]

theorem hasTriple_append_left (x t : List Char) (h : hasTriple x = true) :
    hasTriple (x ++ t) = true := by
  induction x with
  | nil => simp [hasTriple] at h
  | cons c m ih =>
    rcases (hasTriple_cons_iff _ _).mp h with ⟨h1, h2⟩ | h2
    · rw [List.cons_append]
      apply (hasTriple_cons_iff _ _).mpr
      left
      exact ⟨h1, le_trans h2 (countLead_le_append m t)⟩
    · rw [List.cons_append]
      apply (hasTriple_cons_iff _ _).mpr
      right
      exact ih h2

theorem hasTriple_of_append (x t : List Char) (h : hasTriple (x ++ t) = false) :
    hasTriple x = false := by
  rw [Bool.eq_false_iff]
  intro hx
  rw [hasTriple_append_left x t hx] at h
  cases h

theorem hasTriple_tail (c : Char) (m : List Char) (h : hasTriple (c :: m) = false) :
    hasTriple m = false := by
  rw [Bool.eq_false_iff]
  intro hm
  have := (hasTriple_cons_iff c m).mpr (Or.inr hm)
  rw [this] at h
  cases h

theorem hasTriple_dropWhile (p : Char → Bool) (l : List Char) (h : hasTriple l = false) :
    hasTriple (l.dropWhile p) = false := by
  induction l with
  | nil => simpa using h
  | cons c rest ih =>
    by_cases hc : p c = true
    · simp only [List.dropWhile_cons, hc, if_true]
      exact ih (hasTriple_tail c rest h)
    · have hc' : p c = false := by rwa [Bool.not_eq_true] at hc
      simpa only [List.dropWhile_cons, hc', if_false, Bool.false_eq_true] using h

theorem dropTrail_append_exists (p : Char → Bool) (l : List Char) :
    ∃ t, l = dropTrail p l ++ t := by
  induction l with
  | nil => exact ⟨[], rfl⟩
  | cons c rest ih =>
    obtain ⟨t, ht⟩ := ih
    by_cases hr : ((dropTrail p rest).isEmpty && p c) = true
    · refine ⟨c :: rest, ?_⟩
      simp only [dropTrail, hr, if_true]
      rfl
    · have hr' : ((dropTrail p rest).isEmpty && p c) = false := by
        rwa [Bool.not_eq_true] at hr
      refine ⟨t, ?_⟩
      simp only [dropTrail, hr', if_false, Bool.false_eq_true]
      rw [List.cons_append, ← ht]

theorem hasTriple_pyStripL (l : List Char) (h : hasTriple l = false) :
    hasTriple (pyStripL l) = false := by
  unfold pyStripL
  obtain ⟨t, ht⟩ := dropTrail_append_exists pyIsSpace (l.dropWhile pyIsSpace)
  have h1 := hasTriple_dropWhile pyIsSpace l h
  rw [ht] at h1
  exact hasTriple_of_append _ _ h1

/-- C10: the output of `clean_json_response` never contains three
consecutive backticks: the two global substitutions delete every
```json and ``` marker (with trailing whitespace) throughout the text,
also fence sequences embedded inside the payload, and the removal cannot
recombine remaining backticks into a new fence. -/
theorem clean_json_response_no_fence (s : String) :
    hasTriple (clean_json_response s).data = false := by
  unfold clean_json_response pyStrip
  apply hasTriple_pyStripL
  exact (pySubGo_fence_bounds _ _ le_rfl).2.2

/-- Supplementary testable property: the empty mapping normalizes to the
empty study data. -/
theorem validate_study_data_empty_obj :
    validate_study_data (Json.obj []) = Except.ok { notes := [], mcqs := [], flashcards := [] } :=
  rfl
